import Mathlib

/-!
Verification of the threaded-comment core of the pluto_backend repository.

Strings from the JavaScript source (Mongo ObjectIds, comment content,
thread paths) are modelled as lists of characters (`Str`), so that the
character-level behaviour of path concatenation and of the path regular
expression built in `Comment.js` and in the DELETE route can be stated
and proved.  Mongoose documents become Lean structures; a collection is
a `List` of documents; `deleteMany` / `find` filters become `List.filter`
with the translated predicate; `$inc` / field updates become `List.map`.
-/

namespace Pluto

/-- Characters of a JavaScript string. -/
abbrev Str := List Char

/-- The path separator character used by the thread-path encoding. -/
def sep : Char := '/'

/-- Moderation status enum of `commentSchema.moderation.status`. -/
inductive ModStatus where
  | pending
  | approved
  | rejected
deriving DecidableEq

/-- Report-reason enum of `commentSchema.moderation.flags`. -/
inductive FlagReason where
  | spam
  | inappropriate
  | harassment
  | hate_speech
  | other
deriving DecidableEq

/-- Thread metadata of a comment (`commentSchema.thread`): nesting level
(default 0) and materialized ancestor path (default the empty string). -/
structure ThreadMeta where
  level : Nat := 0
  path : Str := []
deriving DecidableEq

/-- Moderation sub-document (`commentSchema.moderation`); the fields the
claims never touch (sentiment, toxicityScore) are not modelled. -/
structure ModerationState where
  status : ModStatus := ModStatus.approved
  flags : List FlagReason := []
deriving DecidableEq

/-- Derived counters of a comment (`commentSchema.stats`). -/
structure CommentStats where
  likesCount : Nat := 0
  repliesCount : Nat := 0
  reportsCount : Nat := 0
deriving DecidableEq

/-- One entry of the `likes` array: the liking user and a timestamp. -/
structure LikeEntry where
  userId : Str
  createdAt : Nat
deriving DecidableEq

/-- A comment document (`commentSchema`).  `parentId` is `none` for a
top-level comment (mongoose default `null`); `createdAt` comes from the
schema timestamps. -/
structure Comment where
  id : Str
  videoId : Str
  userId : Str
  content : Str
  parentId : Option Str := none
  thread : ThreadMeta := {}
  moderation : ModerationState := {}
  stats : CommentStats := {}
  likes : List LikeEntry := []
  isEdited : Bool := false
  createdAt : Nat := 0
deriving DecidableEq

/-- Counter perspective of a video (`videoSchema.stats.commentsCount`);
an `Int` because the route decrements it blindly with `$inc`. -/
structure VideoStats where
  commentsCount : Int := 0
deriving DecidableEq

/-- A video document, reduced to what the comment routes touch. -/
structure Video where
  id : Str
  stats : VideoStats := {}
deriving DecidableEq

/-- Lookup `Comment.findById` over a collection. -/
def findById (db : List Comment) (i : Str) : Option Comment :=
  db.find? (fun c => c.id == i)

/-- Lookup `Video.findById` over a collection. -/
def findVideoById (vs : List Video) (i : Str) : Option Video :=
  vs.find? (fun v => v.id == i)

/-- Update `Video.findByIdAndUpdate` with a `commentsCount` increment of `delta`. -/
def updateVideoCount (vs : List Video) (i : Str) (delta : Int) : List Video :=
  vs.map (fun v =>
    if v.id == i then
      { v with stats := { commentsCount := v.stats.commentsCount + delta } }
    else v)

/-- Pre-save middleware of `Comment.js` for a new document (`isNew`):
when the comment has a parent that exists, its level becomes the
parent's level plus one and its path extends the parent's path with
`/` and the parent id; a falsy (empty) parent path yields `/` plus the
parent id. -/
def preSaveNewComment (db : List Comment) (c : Comment) : Comment :=
  match c.parentId with
  | none => c
  | some pid =>
    match findById db pid with
    | none => c
    | some p =>
      { c with thread :=
          { level := p.thread.level + 1,
            path := if p.thread.path ≠ [] then p.thread.path ++ sep :: pid
                    else sep :: pid } }

/-- The comment document the POST route constructs before `save()`:
all schema defaults (level 0, empty path, approved, zero stats). -/
def mkRouteComment (content videoId userId : Str) (parentId : Option Str)
    (now : Nat) (newId : Str) : Comment :=
  { id := newId, videoId := videoId, userId := userId, content := content,
    parentId := parentId, createdAt := now }

/-- C3 support: the thread metadata written by the pre-save middleware. -/
theorem preSave_thread_eq (db : List Comment) (c : Comment) (pid : Str)
    (p : Comment) (hpid : c.parentId = some pid)
    (hp : findById db pid = some p) :
    preSaveNewComment db c =
      { c with thread :=
          { level := p.thread.level + 1,
            path := if p.thread.path ≠ [] then p.thread.path ++ sep :: pid
                    else sep :: pid } } := by
  simp [preSaveNewComment, hpid, hp]

/-- C3: a newly persisted top-level comment keeps level 0 and the empty
path; a reply to an existing parent `p` found under id `pid` gets level
`p.level + 1` and path `p.path ++ "/" ++ pid` when `p.path` is non-empty
and `"/" ++ pid` when `p.path` is empty. -/
theorem thread_metadata_on_create (db : List Comment) (c : Comment)
    (pid : Str) (p : Comment) (hpid : c.parentId = some pid)
    (hp : findById db pid = some p) :
    (preSaveNewComment db c).thread.level = p.thread.level + 1 ∧
    (preSaveNewComment db c).thread.path =
      (if p.thread.path = [] then sep :: pid
       else p.thread.path ++ sep :: pid) ∧
    (∀ content videoId userId now newId,
      (preSaveNewComment db
        (mkRouteComment content videoId userId none now newId)).thread.level = 0 ∧
      (preSaveNewComment db
        (mkRouteComment content videoId userId none now newId)).thread.path = []) := by
  refine ⟨?_, ?_, ?_⟩
  · rw [preSave_thread_eq db c pid p hpid hp]
  · rw [preSave_thread_eq db c pid p hpid hp]
    by_cases h : p.thread.path = [] <;> simp [h]
  · intro content videoId userId now newId
    simp [preSaveNewComment, mkRouteComment]

/-- Concrete parent for the C3 witness. -/
def c3parent : Comment :=
  { id := ['p'], videoId := ['v'], userId := ['u'], content := ['x'] }

/-- Concrete reply for the C3 witness. -/
def c3reply : Comment :=
  { id := ['r'], videoId := ['v'], userId := ['u'], content := ['y'],
    parentId := some ['p'] }

/-- Witness for C3 at a concrete one-parent database. -/
theorem thread_metadata_on_create_witness :
    (preSaveNewComment [c3parent] c3reply).thread.level =
      c3parent.thread.level + 1 ∧
    (preSaveNewComment [c3parent] c3reply).thread.path =
      (if c3parent.thread.path = [] then sep :: ['p']
       else c3parent.thread.path ++ sep :: ['p']) :=
  ⟨(thread_metadata_on_create [c3parent] c3reply ['p'] c3parent
      (by decide) (by decide)).1,
   (thread_metadata_on_create [c3parent] c3reply ['p'] c3parent
      (by decide) (by decide)).2.1⟩

/-- Method `isLikedBy` of `Comment.js`. -/
def isLikedBy (c : Comment) (u : Str) : Bool :=
  c.likes.any (fun l => l.userId == u)

/-- Method `addLike` of `Comment.js`: push the like if the user has not
liked yet and recompute `likesCount` as the length of `likes`. -/
def addLike (c : Comment) (u : Str) (now : Nat) : Comment :=
  if isLikedBy c u then c
  else
    let likes1 := c.likes ++ [{ userId := u, createdAt := now }]
    { c with likes := likes1,
             stats := { c.stats with likesCount := likes1.length } }

/-- Method `removeLike` of `Comment.js`: filter the user out of `likes`
and recompute `likesCount` as the length of the filtered list. -/
def removeLike (c : Comment) (u : Str) : Comment :=
  let likes1 := c.likes.filter (fun l => !(l.userId == u))
  { c with likes := likes1,
           stats := { c.stats with likesCount := likes1.length } }

/-- C9: `addLike` twice in a row equals `addLike` once, and `removeLike`
for a user who is not in the likes list leaves both the likes list and
`stats.likesCount` unchanged (on a comment whose `likesCount` agrees
with its likes list, the invariant every comment operation maintains). -/
theorem like_ops_idempotent (c : Comment) (u : Str) (t t2 : Nat) :
    addLike (addLike c u t) u t2 = addLike c u t ∧
    (isLikedBy c u = false → c.stats.likesCount = c.likes.length →
      (removeLike c u).likes = c.likes ∧
      (removeLike c u).stats.likesCount = c.stats.likesCount) := by
  constructor
  · by_cases h : isLikedBy c u
    · simp [addLike, h]
    · have h2 : isLikedBy (addLike c u t) u = true := by
        rw [addLike, if_neg h]
        simp [isLikedBy]
      rw [addLike, if_pos h2]
  · intro h1 h2
    have hall : ∀ l ∈ c.likes, (!(l.userId == u)) = true := by
      intro l hl
      have h3 : (l.userId == u) = false := by
        simpa using List.any_eq_false.mp h1 l hl
      rw [h3]
      rfl
    have hfilter : c.likes.filter (fun l => !(l.userId == u)) = c.likes :=
      List.filter_eq_self.mpr hall
    refine ⟨?_, ?_⟩ <;> simp [removeLike, hfilter, h2]

/-- Concrete comment for the C9 witness: one like by user `a`. -/
def c9comment : Comment :=
  { id := ['c'], videoId := ['v'], userId := ['u'], content := ['x'],
    likes := [{ userId := ['a'], createdAt := 3 }],
    stats := { likesCount := 1 } }

/-- Witness for C9: `removeLike` of a non-liking user is a no-op on a
concrete comment. -/
theorem like_ops_idempotent_witness :
    (removeLike c9comment ['b']).likes = c9comment.likes ∧
    (removeLike c9comment ['b']).stats.likesCount =
      c9comment.stats.likesCount :=
  (like_ops_idempotent c9comment ['b'] 0 0).2 (by decide) (by decide)

/-- The POST `/api/comments/:id/report` handler body acting on the
fetched comment (after reason validation): a no-op when the reason is
already flagged, otherwise push the reason, deduplicate the flags,
increment `reportsCount`, and flip the status to `pending` once the
incremented count reaches 5. -/
def reportComment (c : Comment) (reason : FlagReason) : Comment :=
  if reason ∈ c.moderation.flags then c
  else
    { c with
      moderation :=
        { c.moderation with
          flags := (c.moderation.flags ++ [reason]).dedup,
          status := if 5 ≤ c.stats.reportsCount + 1 then ModStatus.pending
                    else c.moderation.status },
      stats := { c.stats with reportsCount := c.stats.reportsCount + 1 } }

/-- Reporting with a reason that is already flagged changes nothing, so
reporting is idempotent per reason. -/
lemma reportComment_idem (c : Comment) (r : FlagReason) :
    reportComment (reportComment c r) r = reportComment c r := by
  by_cases h : r ∈ c.moderation.flags
  · simp [reportComment, h]
  · have h2 : r ∈ (reportComment c r).moderation.flags := by
      simp [reportComment, h, List.mem_dedup]
    rw [reportComment, if_pos h2]

/-- Fresh comment with no flags and no reports, for C8. -/
def c8comment : Comment :=
  { id := ['c'], videoId := ['v'], userId := ['u'], content := ['x'] }

/-- C8 counterexample: reporting the same fresh comment with reason
`spam` five times leaves `moderation.status` at `approved`; it does not
become `pending`, because reports 2..5 repeat an already-used reason and
are complete no-ops, so `reportsCount` stays at 1. -/
theorem report_five_spam_counterexample :
    (((fun x => reportComment x FlagReason.spam)^[5]) c8comment).moderation.status ≠
      ModStatus.pending := by
  decide

/-- C8 amended: a report whose reason is already flagged is a no-op (no
duplicate flag entry, no counter change), hence five same-reason reports
equal a single one and cannot reach the auto-moderation threshold; a
report with a new reason increments `reportsCount` by one and the status
becomes `pending` exactly when that increment reaches 5 (or it already
was `pending`). -/
theorem report_flag_semantics (c : Comment) (r : FlagReason) :
    (r ∈ c.moderation.flags → reportComment c r = c) ∧
    ((fun x => reportComment x r)^[5]) c = reportComment c r ∧
    (r ∉ c.moderation.flags →
      (reportComment c r).stats.reportsCount = c.stats.reportsCount + 1 ∧
      r ∈ (reportComment c r).moderation.flags ∧
      ((reportComment c r).moderation.status = ModStatus.pending ↔
        (5 ≤ c.stats.reportsCount + 1 ∨
          c.moderation.status = ModStatus.pending))) := by
  refine ⟨?_, ?_, ?_⟩
  · intro h
    simp [reportComment, h]
  · have h5 : ((fun x => reportComment x r)^[5]) c =
        reportComment (reportComment (reportComment (reportComment
          (reportComment c r) r) r) r) r := rfl
    rw [h5, reportComment_idem, reportComment_idem, reportComment_idem,
      reportComment_idem]
  · intro h
    refine ⟨?_, ?_, ?_⟩
    · simp [reportComment, h]
    · simp [reportComment, h, List.mem_dedup]
    · by_cases h5 : 5 ≤ c.stats.reportsCount + 1
      · simp [reportComment, h, h5]
      · simp [reportComment, h, h5]

/-- Witness for C8's amended statement: on a fresh comment a first spam
report flags spam and sets `reportsCount` to 1. -/
theorem report_flag_semantics_witness :
    (reportComment c8comment FlagReason.spam).stats.reportsCount =
      c8comment.stats.reportsCount + 1 ∧
    FlagReason.spam ∈ (reportComment c8comment FlagReason.spam).moderation.flags :=
  ⟨((report_flag_semantics c8comment FlagReason.spam).2.2 (by decide)).1,
   ((report_flag_semantics c8comment FlagReason.spam).2.2 (by decide)).2.1⟩

/-- Encode a list of path segments as a thread-path string: each segment
is preceded by `/`, exactly the shape the pre-save middleware builds
(`""`, `"/A"`, `"/A/B"`, ...). -/
def segsToPath : List Str → Str
  | [] => []
  | s :: rest => sep :: (s ++ segsToPath rest)

/-- Split the characters after the leading separator into segments. -/
def segsAux : Str → Str → List Str
  | [], acc => [acc.reverse]
  | ch :: rest, acc =>
    if ch = sep then acc.reverse :: segsAux rest []
    else segsAux rest (ch :: acc)

/-- Decompose a thread-path string into its list of path segments
(inverse of `segsToPath` on well-formed paths). -/
def pathSegments : Str → List Str
  | [] => []
  | _ :: rest => segsAux rest []

/-- A path string is well formed when it is the encoding of its own
segment list — true of the empty path and of every path the pre-save
middleware constructs from slash-free ids. -/
def wfPath (p : Str) : Bool :=
  p == segsToPath (pathSegments p)

/-- Semantics of the regular expression `/<cid>(/|$)` that both
`getCommentThread` and the DELETE route build: an unanchored match
means `"/" ++ cid ++ "/"` occurs inside the path or `"/" ++ cid` is a
suffix of it.  (ObjectIds are hexadecimal, so `cid` has no regex
metacharacters and the pattern matches it literally.) -/
def pathRegexMatches (cid p : Str) : Bool :=
  decide ((sep :: (cid ++ [sep])) <:+: p ∨ (sep :: cid) <:+ p)

lemma segsAux_sep_free : ∀ (s acc : Str), sep ∉ acc →
    ∀ t ∈ segsAux s acc, sep ∉ t := by
  intro s
  induction s with
  | nil =>
    intro acc hacc t ht
    simp only [segsAux, List.mem_singleton] at ht
    subst ht
    simpa using hacc
  | cons ch rest ih =>
    intro acc hacc t ht
    by_cases hch : ch = sep
    · rw [segsAux, if_pos hch] at ht
      rcases List.mem_cons.mp ht with h | h
      · subst h
        simpa using hacc
      · exact ih [] (by simp) t h
    · rw [segsAux, if_neg hch] at ht
      refine ih (ch :: acc) ?_ t ht
      intro hmem
      rcases List.mem_cons.mp hmem with h | h
      · exact hch h.symm
      · exact hacc h

/-- Every segment produced by `pathSegments` is free of the separator. -/
lemma pathSegments_sep_free (p : Str) : ∀ t ∈ pathSegments p, sep ∉ t := by
  cases p with
  | nil => simp [pathSegments]
  | cons ch rest => exact segsAux_sep_free rest [] (by simp)

lemma segsToPath_shape (segs : List Str) :
    segsToPath segs = [] ∨ ∃ q, segsToPath segs = sep :: q := by
  cases segs with
  | nil => exact Or.inl rfl
  | cons s rest => exact Or.inr ⟨s ++ segsToPath rest, rfl⟩

/-- Backward direction of the regex characterization: a genuine segment
is matched by the `/<cid>(/|$)` pattern. -/
lemma mem_regexMatch (cid : Str) :
    ∀ segs : List Str, cid ∈ segs →
      ((sep :: (cid ++ [sep])) <:+: segsToPath segs ∨
        (sep :: cid) <:+ segsToPath segs) := by
  intro segs
  induction segs with
  | nil => simp
  | cons s rest ih =>
    intro hmem
    rcases List.mem_cons.mp hmem with heq | hmem'
    · subst heq
      cases rest with
      | nil =>
        right
        simp [segsToPath]
      | cons r rs =>
        left
        apply List.IsPrefix.isInfix
        refine ⟨r ++ segsToPath rs, ?_⟩
        simp [segsToPath]
    · have hsuf : segsToPath rest <:+ segsToPath (s :: rest) :=
        ⟨sep :: s, by simp [segsToPath]⟩
      rcases ih hmem' with h | h
      · exact Or.inl (h.trans hsuf.isInfix)
      · exact Or.inr (h.trans hsuf)

/-- Forward direction of the regex characterization: over a path built
from slash-free segments, a match of `/<cid>(/|$)` with a slash-free
`cid` forces `cid` to be one of the segments. -/
lemma regexMatch_mem (cid : Str) (hcid : sep ∉ cid) :
    ∀ segs : List Str, (∀ s ∈ segs, sep ∉ s) →
      ((sep :: (cid ++ [sep])) <:+: segsToPath segs ∨
        (sep :: cid) <:+ segsToPath segs) → cid ∈ segs := by
  intro segs
  induction segs with
  | nil =>
    intro _ h
    rcases h with h | h
    · simp [segsToPath, List.infix_nil] at h
    · simp [segsToPath, List.suffix_nil] at h
  | cons s rest ih =>
    intro hs h
    have hss : sep ∉ s := hs s (List.mem_cons_self s rest)
    have hsr : ∀ x ∈ rest, sep ∉ x := fun x hx => hs x (List.mem_cons_of_mem s hx)
    have hhead := segsToPath_shape rest
    rcases h with h | h
    · obtain ⟨t, u, ht⟩ := h
      cases t with
      | nil =>
        simp only [List.nil_append, segsToPath, List.cons_append,
          List.cons.injEq, true_and] at ht
        rw [List.append_assoc] at ht
        rcases List.append_eq_append_iff.mp ht with ⟨w, hw1, hw2⟩ | ⟨w, hw1, hw2⟩
        · cases w with
          | nil =>
            refine List.mem_cons.mpr (Or.inl ?_)
            simpa using hw1.symm
          | cons x w' =>
            exfalso
            have hx : x = sep := by
              have h0 := congrArg List.head? hw2
              simp at h0
              first
              | exact h0
              | exact h0.symm
            apply hss
            rw [hw1, hx]
            simp
        · cases w with
          | nil =>
            refine List.mem_cons.mpr (Or.inl ?_)
            simpa using hw1
          | cons x w' =>
            exfalso
            rcases hhead with hP | ⟨q, hP⟩
            · rw [hP] at hw2
              simp at hw2
            · have hx : x = sep := by
                have h0 := congrArg List.head? hw2
                rw [hP] at h0
                simp at h0
                first
                | exact h0
                | exact h0.symm
              apply hcid
              rw [hw1, hx]
              simp
      | cons x t' =>
        simp only [segsToPath, List.cons_append, List.cons.injEq] at ht
        obtain ⟨hxt, ht2⟩ := ht
        rw [List.append_assoc] at ht2
        rcases List.append_eq_append_iff.mp ht2 with ⟨w, hw1, hw2⟩ | ⟨w, hw1, hw2⟩
        · cases w with
          | nil =>
            refine List.mem_cons_of_mem s (ih hsr (Or.inl ⟨[], u, ?_⟩))
            simpa using hw2
          | cons x' w' =>
            exfalso
            have hx : x' = sep := by
              have h0 := congrArg List.head? hw2
              simp at h0
              first
              | exact h0
              | exact h0.symm
            apply hss
            rw [hw1, hx]
            simp
        · refine List.mem_cons_of_mem s (ih hsr (Or.inl ⟨w, u, ?_⟩))
          rw [hw2]
          exact List.append_assoc w (sep :: (cid ++ [sep])) u
    · obtain ⟨t, ht⟩ := h
      cases t with
      | nil =>
        simp only [List.nil_append, segsToPath, List.cons.injEq, true_and] at ht
        rcases hhead with hP | ⟨q, hP⟩
        · refine List.mem_cons.mpr (Or.inl ?_)
          rw [ht, hP, List.append_nil]
        · exfalso
          apply hcid
          rw [ht, hP]
          simp
      | cons x t' =>
        simp only [List.cons_append, segsToPath, List.cons.injEq] at ht
        rcases List.append_eq_append_iff.mp ht.2 with ⟨w, hw1, hw2⟩ | ⟨w, hw1, hw2⟩
        · cases w with
          | nil =>
            refine List.mem_cons_of_mem s (ih hsr (Or.inr ⟨[], ?_⟩))
            simpa using hw2
          | cons x' w' =>
            exfalso
            have hx : x' = sep := by
              have h0 := congrArg List.head? hw2
              simp at h0
              first
              | exact h0
              | exact h0.symm
            apply hss
            rw [hw1, hx]
            simp
        · exact List.mem_cons_of_mem s (ih hsr (Or.inr ⟨w, hw2.symm⟩))

/-- The regex `/<cid>(/|$)` matches a well-formed path exactly when
`cid` is one of its path segments. -/
lemma pathRegexMatches_iff (cid p : Str) (hcid : sep ∉ cid)
    (hp : wfPath p = true) :
    pathRegexMatches cid p = true ↔ cid ∈ pathSegments p := by
  have hpe : p = segsToPath (pathSegments p) := by
    simpa [wfPath] using hp
  have hsegs := pathSegments_sep_free p
  rw [pathRegexMatches, decide_eq_true_eq]
  constructor
  · intro h
    rw [hpe] at h
    exact regexMatch_mem cid hcid (pathSegments p) hsegs h
  · intro h
    have h2 := mem_regexMatch cid (pathSegments p) h
    rw [← hpe] at h2
    exact h2

/-- The Mongo sort specification of `getCommentThread` — `thread.level`
ascending then `createdAt` ascending — as a boolean comparison. -/
def threadLE (a b : Comment) : Bool :=
  decide (a.thread.level < b.thread.level) ||
    (decide (a.thread.level = b.thread.level) &&
      decide (a.createdAt ≤ b.createdAt))

lemma threadLE_trans : ∀ a b c : Comment, threadLE a b = true →
    threadLE b c = true → threadLE a c = true := by
  intro a b c hab hbc
  simp only [threadLE, Bool.or_eq_true, Bool.and_eq_true,
    decide_eq_true_eq] at hab hbc ⊢
  omega

lemma threadLE_total : ∀ a b : Comment, (threadLE a b || threadLE b a) = true := by
  intro a b
  simp only [threadLE, Bool.or_eq_true, Bool.and_eq_true, decide_eq_true_eq]
  omega

/-- Filter of the `getCommentThread` static: id equals the requested
root, or the thread path matches `/<rootId>(/|$)`; and the comment is
approved. -/
def threadQueryPred (cid : Str) (c : Comment) : Bool :=
  (c.id == cid || pathRegexMatches cid c.thread.path) &&
    (c.moderation.status == ModStatus.approved)

/-- Static `getCommentThread(commentId, options)` of `Comment.js`:
filter, sort by `(thread.level asc, createdAt asc)`, truncate to
`limit`. -/
def getCommentThread (db : List Comment) (cid : Str) (limit : Nat) :
    List Comment :=
  ((db.filter (threadQueryPred cid)).mergeSort threadLE).take limit

lemma threadQueryPred_iff (cid : Str) (c : Comment) (hcid : sep ∉ cid)
    (hc : wfPath c.thread.path = true) :
    threadQueryPred cid c = true ↔
      ((c.id = cid ∨ cid ∈ pathSegments c.thread.path) ∧
        c.moderation.status = ModStatus.approved) := by
  simp [threadQueryPred, pathRegexMatches_iff cid c.thread.path hcid hc]

/-- C4: over a database of well-formed paths, the thread query returns
only approved comments that are the root or have `rootId` as a path
segment; when nothing is truncated it returns exactly those; the result
is ordered by `(thread.level asc, createdAt asc)`, has at most `limit`
elements, and keeps the first elements of the sort order — everything
it retains precedes everything truncation drops. -/
theorem thread_query_exact (db : List Comment) (rootId : Str) (limit : Nat)
    (hwf : ∀ c ∈ db, wfPath c.thread.path = true) (hroot : sep ∉ rootId) :
    (∀ c ∈ getCommentThread db rootId limit,
      c.moderation.status = ModStatus.approved ∧
        (c.id = rootId ∨ rootId ∈ pathSegments c.thread.path)) ∧
    ((db.filter (threadQueryPred rootId)).length ≤ limit →
      ∀ c ∈ db,
        (c ∈ getCommentThread db rootId limit ↔
          (c.moderation.status = ModStatus.approved ∧
            (c.id = rootId ∨ rootId ∈ pathSegments c.thread.path)))) ∧
    List.Pairwise (fun a b => threadLE a b = true)
      (getCommentThread db rootId limit) ∧
    (getCommentThread db rootId limit).length ≤ limit ∧
    (∀ a ∈ getCommentThread db rootId limit,
      ∀ b ∈ ((db.filter (threadQueryPred rootId)).mergeSort threadLE).drop limit,
        threadLE a b = true) := by
  have hperm := List.mergeSort_perm (db.filter (threadQueryPred rootId)) threadLE
  have hforward : ∀ c ∈ getCommentThread db rootId limit,
      c.moderation.status = ModStatus.approved ∧
        (c.id = rootId ∨ rootId ∈ pathSegments c.thread.path) := by
    intro c hc
    have hc2 : c ∈ db.filter (threadQueryPred rootId) :=
      hperm.mem_iff.mp (List.take_subset _ _ hc)
    obtain ⟨hcdb, hcp⟩ := List.mem_filter.mp hc2
    have h3 := (threadQueryPred_iff rootId c hroot (hwf c hcdb)).mp hcp
    exact ⟨h3.2, h3.1⟩
  refine ⟨hforward, ?_, ?_, ?_, ?_⟩
  · intro hlen c hcdb
    constructor
    · intro hc
      exact hforward c hc
    · intro hpred
      have hp : threadQueryPred rootId c = true :=
        (threadQueryPred_iff rootId c hroot (hwf c hcdb)).mpr
          ⟨hpred.2, hpred.1⟩
      have hcm : c ∈ (db.filter (threadQueryPred rootId)).mergeSort threadLE :=
        hperm.mem_iff.mpr (List.mem_filter.mpr ⟨hcdb, hp⟩)
      have hle : ((db.filter (threadQueryPred rootId)).mergeSort threadLE).length ≤ limit := by
        rw [hperm.length_eq]
        exact hlen
      rw [getCommentThread, List.take_of_length_le hle]
      exact hcm
  · exact List.Pairwise.sublist (List.take_sublist _ _)
      (List.sorted_mergeSort threadLE_trans threadLE_total _)
  · exact List.length_take_le _ _
  · intro a ha b hb
    have hpw := List.sorted_mergeSort threadLE_trans threadLE_total
      (db.filter (threadQueryPred rootId))
    rw [← List.take_append_drop limit
      ((db.filter (threadQueryPred rootId)).mergeSort threadLE)] at hpw
    exact (List.pairwise_append.mp hpw).2.2 a ha b hb

/-- Concrete database for the C4 witness: an approved root `r`, an
approved child and grandchild, a rejected child, and an unrelated
top-level comment. -/
def c4root : Comment :=
  { id := ['r'], videoId := ['v'], userId := ['u'], content := ['x'] }

def c4child : Comment :=
  { id := ['a'], videoId := ['v'], userId := ['u'], content := ['x'],
    parentId := some ['r'], thread := { level := 1, path := [sep, 'r'] },
    createdAt := 1 }

def c4grand : Comment :=
  { id := ['b'], videoId := ['v'], userId := ['u'], content := ['x'],
    parentId := some ['a'],
    thread := { level := 2, path := [sep, 'r', sep, 'a'] },
    createdAt := 2 }

def c4rej : Comment :=
  { id := ['q'], videoId := ['v'], userId := ['u'], content := ['x'],
    parentId := some ['r'], thread := { level := 1, path := [sep, 'r'] },
    moderation := { status := ModStatus.rejected }, createdAt := 3 }

def c4other : Comment :=
  { id := ['z'], videoId := ['v'], userId := ['u'], content := ['x'],
    createdAt := 4 }

def c4db : List Comment := [c4root, c4child, c4grand, c4rej, c4other]

/-- Witness for C4 at the concrete database. -/
theorem thread_query_exact_witness :
    List.Pairwise (fun a b => threadLE a b = true)
      (getCommentThread c4db ['r'] 50) ∧
    (getCommentThread c4db ['r'] 50).length ≤ 50 :=
  ⟨(thread_query_exact c4db ['r'] 50 (by decide) (by decide)).2.2.1,
   (thread_query_exact c4db ['r'] 50 (by decide) (by decide)).2.2.2.1⟩

/-- Status code of GET `/api/comments/:id/thread` on a cache miss: 404
exactly when the query came back empty, otherwise 200. -/
def threadRouteStatus (db : List Comment) (rootId : Str) (limit : Nat) : Nat :=
  if (getCommentThread db rootId limit).length = 0 then 404 else 200

/-- C10: when the root of a thread is not approved, the thread query
excludes the root itself but still admits every approved comment having
`rootId` as a path segment, and the route answers 404 exactly on an
empty result — so a pending or rejected root with approved descendants
is served with 200 and no root element. -/
theorem unapproved_root_thread (db : List Comment) (rootId : Str)
    (limit : Nat) (root : Comment)
    (hwf : ∀ c ∈ db, wfPath c.thread.path = true) (hroot : sep ∉ rootId)
    (hmem : root ∈ db) (hid : root.id = rootId)
    (hstatus : root.moderation.status ≠ ModStatus.approved) :
    root ∉ getCommentThread db rootId limit ∧
    ((db.filter (threadQueryPred rootId)).length ≤ limit →
      ∀ c ∈ db, c.moderation.status = ModStatus.approved →
        rootId ∈ pathSegments c.thread.path →
        c ∈ getCommentThread db rootId limit) ∧
    (threadRouteStatus db rootId limit = 404 ↔
      getCommentThread db rootId limit = []) ∧
    (∀ c ∈ db, threadQueryPred rootId c = true → limit ≠ 0 →
      threadRouteStatus db rootId limit = 200) := by
  have hperm := List.mergeSort_perm (db.filter (threadQueryPred rootId)) threadLE
  refine ⟨?_, ?_, ?_, ?_⟩
  · intro hin
    have hc2 : root ∈ db.filter (threadQueryPred rootId) :=
      hperm.mem_iff.mp (List.take_subset _ _ hin)
    obtain ⟨hcdb, hcp⟩ := List.mem_filter.mp hc2
    exact hstatus ((threadQueryPred_iff rootId root hroot (hwf root hcdb)).mp hcp).2
  · intro hlen c hcdb happ hseg
    have hp : threadQueryPred rootId c = true :=
      (threadQueryPred_iff rootId c hroot (hwf c hcdb)).mpr
        ⟨Or.inr hseg, happ⟩
    have hcm : c ∈ (db.filter (threadQueryPred rootId)).mergeSort threadLE :=
      hperm.mem_iff.mpr (List.mem_filter.mpr ⟨hcdb, hp⟩)
    have hle : ((db.filter (threadQueryPred rootId)).mergeSort threadLE).length ≤ limit := by
      rw [hperm.length_eq]
      exact hlen
    rw [getCommentThread, List.take_of_length_le hle]
    exact hcm
  · rw [threadRouteStatus]
    by_cases h : (getCommentThread db rootId limit).length = 0
    · simp [h, List.length_eq_zero.mp h]
    · simp [h]
      intro h2
      exact h (by rw [h2]; rfl)
  · intro c hcdb hp hlim
    have hcm : c ∈ (db.filter (threadQueryPred rootId)).mergeSort threadLE :=
      hperm.mem_iff.mpr (List.mem_filter.mpr ⟨hcdb, hp⟩)
    have hne : (db.filter (threadQueryPred rootId)).mergeSort threadLE ≠ [] := by
      intro h0
      rw [h0] at hcm
      exact List.not_mem_nil c hcm
    have hne2 : getCommentThread db rootId limit ≠ [] := by
      rw [getCommentThread]
      intro h0
      rcases List.take_eq_nil_iff.mp h0 with h1 | h1
      · exact hlim h1
      · exact hne h1
    rw [threadRouteStatus, if_neg (fun h0 => hne2 (List.length_eq_zero.mp h0))]

/-- Concrete database for the C10 witness: a pending root with one
approved reply. -/
def c10root : Comment :=
  { id := ['r'], videoId := ['v'], userId := ['u'], content := ['x'],
    moderation := { status := ModStatus.pending } }

def c10child : Comment :=
  { id := ['a'], videoId := ['v'], userId := ['u'], content := ['x'],
    parentId := some ['r'], thread := { level := 1, path := [sep, 'r'] },
    createdAt := 1 }

def c10db : List Comment := [c10root, c10child]

/-- Witness for C10: the pending root is excluded and the route still
answers 200 because the approved reply matches. -/
theorem unapproved_root_thread_witness :
    c10root ∉ getCommentThread c10db ['r'] 50 ∧
    threadRouteStatus c10db ['r'] 50 = 200 :=
  ⟨(unapproved_root_thread c10db ['r'] 50 c10root (by decide) (by decide)
      (by decide) (by decide) (by decide)).1,
   (unapproved_root_thread c10db ['r'] 50 c10root (by decide) (by decide)
      (by decide) (by decide) (by decide)).2.2.2 c10child (by decide)
      (by decide) (by decide)⟩

/-- Filter of the DELETE route's `deleteMany`: the comment itself by id,
or any comment whose path matches `/<cid>(/|$)`. -/
def deleteMatchPred (cid : Str) (c : Comment) : Bool :=
  c.id == cid || pathRegexMatches cid c.thread.path

/-- Bulk delete `Comment.deleteMany` of the DELETE route: the number of deleted
documents (`deletedCount`) and the surviving collection. -/
def deleteCascade (db : List Comment) (cid : Str) : Nat × List Comment :=
  (db.countP (deleteMatchPred cid),
    db.filter (fun c => !(deleteMatchPred cid c)))

/-- Update `Comment.findByIdAndUpdate` overwriting `stats.repliesCount` with `n`. -/
def setRepliesCount (db : List Comment) (pid : Str) (n : Nat) : List Comment :=
  db.map (fun c =>
    if c.id == pid then { c with stats := { c.stats with repliesCount := n } }
    else c)

/-- Names of the methods the `RedisClient` class of `config/redis.js`
actually defines. -/
def redisClientMethodNames : List String :=
  ["connect", "disconnect", "generateKey", "setUser", "getUser",
   "setPhoto", "getPhoto", "setPhotosList", "getPhotosList",
   "setComments", "getComments", "setSession", "getSession",
   "deleteSession", "incrementRateLimit", "setSearchResults",
   "getSearchResults", "invalidateUser", "invalidatePhoto",
   "invalidatePhotosList", "set", "get", "del", "ping"]

/-- The method both the POST and the DELETE comment handlers invoke for
video-cache invalidation.  `RedisClient` never defines it, so the call
throws a TypeError inside the `try` — after the database mutations, but
before the success response — and the catch-all answers 500. -/
def calledInvalidateVideo : String := "invalidateVideo"

/-- State of the collections after the DELETE handler's mutations
(subtree bulk-deleted, video counter decremented, parent recounted).
The `deletedCount` field is the `deleteMany` result the handler
computed and used for the `$inc`; it never reaches a response, because
the handler then throws at the undefined
`redisClient.invalidateVideo`. -/
structure DeleteState where
  deletedCount : Nat
  db : List Comment
  videos : List Video
deriving DecidableEq

/-- Outcome of DELETE `/api/comments/:id` after the ownership check:
404 when the comment is missing; otherwise the mutations of
`DeleteState` are applied and the handler then throws at the undefined
`redisClient.invalidateVideo`, so the response is the generic 500
(`Failed to delete comment`) and never the success payload carrying
`deletedCount`. -/
inductive DeleteOutcome where
  | notFound
  | serverErrorAfterDelete (s : DeleteState)
deriving DecidableEq

/-- HTTP status of each delete outcome. -/
def deleteOutcomeStatus : DeleteOutcome → Nat
  | DeleteOutcome.notFound => 404
  | DeleteOutcome.serverErrorAfterDelete _ => 500

/-- DELETE `/api/comments/:id` after the ownership check: look the
comment up (404 when missing); bulk-delete the subtree, `$inc` the
video's `commentsCount` by minus the deleted count, and if the comment
had a parent overwrite the parent's `repliesCount` with a fresh
`countDocuments` over the surviving collection; then the invalidation
step evaluates `redisClient.invalidateVideo(videoId.toString())`, a
method `RedisClient` does not define, which throws, so the handler ends
in the 500 branch with the mutations already persisted. -/
def deleteCommentRoute (videos : List Video) (db : List Comment)
    (cid : Str) : DeleteOutcome :=
  match findById db cid with
  | none => DeleteOutcome.notFound
  | some c =>
    let res := deleteCascade db cid
    let videos1 := updateVideoCount videos c.videoId (-(res.1 : Int))
    let db2 :=
      match c.parentId with
      | some pid =>
        setRepliesCount res.2 pid
          (res.2.countP (fun x => x.parentId == some pid))
      | none => res.2
    DeleteOutcome.serverErrorAfterDelete
      { deletedCount := res.1, db := db2, videos := videos1 }

lemma deleteMatchPred_iff (cid : Str) (c : Comment) (hcid : sep ∉ cid)
    (hc : wfPath c.thread.path = true) :
    deleteMatchPred cid c = true ↔
      (c.id = cid ∨ cid ∈ pathSegments c.thread.path) := by
  simp [deleteMatchPred, pathRegexMatches_iff cid c.thread.path hcid hc]

lemma countP_or_disjoint {α : Type} (l : List α) (p q : α → Bool)
    (h : ∀ x ∈ l, ¬(p x = true ∧ q x = true)) :
    l.countP (fun x => p x || q x) = l.countP p + l.countP q := by
  induction l with
  | nil => simp
  | cons a t ih =>
    rw [List.countP_cons, List.countP_cons, List.countP_cons,
      ih (fun x hx => h x (List.mem_cons_of_mem a hx))]
    have ha := h a (List.mem_cons_self a t)
    by_cases hp : p a = true
    · have hq : q a = false := by
        cases hqv : q a
        · rfl
        · exact absurd ⟨hp, hqv⟩ ha
      simp [hp, hq]
      omega
    · have hp2 : p a = false := by
        cases hpv : p a
        · rfl
        · exact absurd hpv hp
      cases hqv : q a <;> simp [hp2, hqv] <;> omega

lemma countP_id_eq_one (db : List Comment) (c : Comment) (cid : Str)
    (hnodup : (db.map Comment.id).Nodup) (hmem : c ∈ db)
    (hcid : c.id = cid) :
    db.countP (fun x => x.id == cid) = 1 := by
  induction db with
  | nil => cases hmem
  | cons a rest ih =>
    rw [List.map_cons, List.nodup_cons] at hnodup
    rw [List.countP_cons]
    by_cases hac : (a.id == cid) = true
    · have h0 : rest.countP (fun x => x.id == cid) = 0 := by
        rw [List.countP_eq_zero]
        intro x hx hpx
        apply hnodup.1
        rw [beq_iff_eq] at hac hpx
        rw [hac, ← hpx]
        exact List.mem_map_of_mem Comment.id hx
      simp [hac, h0]
    · have hcr : c ∈ rest := by
        rcases List.mem_cons.mp hmem with h | h
        · exact absurd (h ▸ hcid) (fun h2 => hac (beq_iff_eq.mpr h2))
        · exact h
      simp [hac, ih hnodup.2 hcr]

lemma countP_parentId_setRepliesCount (l : List Comment) (pid : Str)
    (n : Nat) (qid : Str) :
    (setRepliesCount l pid n).countP (fun x => x.parentId == some qid) =
      l.countP (fun x => x.parentId == some qid) := by
  rw [setRepliesCount, List.countP_map]
  apply List.countP_congr
  intro x _
  by_cases hx : (x.id == pid) = true <;> simp [Function.comp, hx]

/-- C1 (amended): deleting comment `c` (looked up by `cid`) over a
well-formed database with distinct ids and no self-ancestry removes
exactly `c` together with its `N` descendants (the comments having
`cid` as a path segment) in one bulk operation; the internal
`deletedCount` is `N + 1`; the owning video's `commentsCount` drops by
exactly `N + 1`; and when `c` had a parent, the parent's
`repliesCount` is overwritten with the exact count of its remaining
children.  But the handler then throws at the undefined
`redisClient.invalidateVideo` and answers 500, so no response ever
reports the deleted count. -/
theorem cascade_delete_exact (videos : List Video) (db : List Comment)
    (cid : Str) (c : Comment)
    (hwf : ∀ x ∈ db, wfPath x.thread.path = true)
    (hcid : sep ∉ cid)
    (hnodup : (db.map Comment.id).Nodup)
    (hfind : findById db cid = some c)
    (hnoself : cid ∉ pathSegments c.thread.path) :
    (deleteCascade db cid).1 =
      db.countP (fun x => decide (cid ∈ pathSegments x.thread.path)) + 1 ∧
    (∀ x ∈ db, (x ∈ (deleteCascade db cid).2 ↔
      ¬(x.id = cid ∨ cid ∈ pathSegments x.thread.path))) ∧
    deleteOutcomeStatus (deleteCommentRoute videos db cid) = 500 ∧
    (∀ s, deleteCommentRoute videos db cid =
        DeleteOutcome.serverErrorAfterDelete s →
      s.deletedCount =
        db.countP (fun x => decide (cid ∈ pathSegments x.thread.path)) + 1 ∧
      (∀ v ∈ videos, v.id = c.videoId →
        { v with stats := { commentsCount := v.stats.commentsCount -
          (db.countP (fun x => decide (cid ∈ pathSegments x.thread.path)) + 1) } }
          ∈ s.videos) ∧
      (∀ pid, c.parentId = some pid →
        ∀ p2 ∈ s.db, p2.id = pid →
          p2.stats.repliesCount =
            (s.db.filter (fun x => x.parentId == some pid)).length)) := by
  have hfind2 : db.find? (fun x => x.id == cid) = some c := hfind
  have hcdb : c ∈ db := List.mem_of_find?_eq_some hfind2
  have hcideq : c.id = cid := by
    have h0 := List.find?_some hfind2
    simpa using h0
  have hdisj : ∀ x ∈ db, ¬((x.id == cid) = true ∧
      pathRegexMatches cid x.thread.path = true) := by
    rintro x hx ⟨h1, h2⟩
    rw [beq_iff_eq] at h1
    have hxc : x = c :=
      List.inj_on_of_nodup_map hnodup hx hcdb (by rw [h1, hcideq])
    subst hxc
    exact hnoself
      ((pathRegexMatches_iff cid x.thread.path hcid (hwf x hx)).mp h2)
  have hcount : (deleteCascade db cid).1 =
      db.countP (fun x => decide (cid ∈ pathSegments x.thread.path)) + 1 := by
    have h1 : (deleteCascade db cid).1 =
        db.countP (fun x => x.id == cid) +
          db.countP (fun x => pathRegexMatches cid x.thread.path) :=
      countP_or_disjoint db _ _ hdisj
    have h2 : db.countP (fun x => x.id == cid) = 1 :=
      countP_id_eq_one db c cid hnodup hcdb hcideq
    have h3 : db.countP (fun x => pathRegexMatches cid x.thread.path) =
        db.countP (fun x => decide (cid ∈ pathSegments x.thread.path)) := by
      apply List.countP_congr
      intro x hx
      rw [pathRegexMatches_iff cid x.thread.path hcid (hwf x hx)]
      simp
    rw [h1, h2, h3]
    omega
  have hmem2 : ∀ x ∈ db, (x ∈ (deleteCascade db cid).2 ↔
      ¬(x.id = cid ∨ cid ∈ pathSegments x.thread.path)) := by
    intro x hx
    have hiff := deleteMatchPred_iff cid x hcid (hwf x hx)
    constructor
    · intro hmem hdisj2
      obtain ⟨_, hb⟩ := List.mem_filter.mp hmem
      rw [Bool.not_eq_true'] at hb
      rw [hiff.mpr hdisj2] at hb
      cases hb
    · intro hn
      refine List.mem_filter.mpr ⟨hx, ?_⟩
      have hfalse : deleteMatchPred cid x = false := by
        cases hdm : deleteMatchPred cid x
        · rfl
        · exact absurd (hiff.mp hdm) hn
      rw [hfalse]
      rfl
  refine ⟨hcount, hmem2, ?_, ?_⟩
  · rw [deleteCommentRoute, hfind]
    rfl
  intro s hok
  rw [deleteCommentRoute, hfind] at hok
  injection hok with hok2
  subst hok2
  refine ⟨hcount, ?_, ?_⟩
  · intro v hv hvid
    show { v with stats := { commentsCount := v.stats.commentsCount -
        (db.countP (fun x => decide (cid ∈ pathSegments x.thread.path)) + 1) } }
      ∈ updateVideoCount videos c.videoId (-((deleteCascade db cid).1 : Int))
    rw [updateVideoCount]
    refine List.mem_map.mpr ⟨v, hv, ?_⟩
    rw [if_pos (beq_iff_eq.mpr hvid)]
    have hAB : v.stats.commentsCount + (-((deleteCascade db cid).1 : Int)) =
        v.stats.commentsCount -
          (db.countP (fun x => decide (cid ∈ pathSegments x.thread.path)) + 1) := by
      rw [hcount]
      push_cast
      ring
    rw [hAB]
  · intro pid hpid p2 hp2 hp2id
    rw [hpid] at hp2
    simp only at hp2
    obtain ⟨x, hxmem, hximg⟩ := List.mem_map.mp hp2
    have hcnt : ((deleteCascade db cid).2.countP
        (fun y => y.parentId == some pid)) =
        ((setRepliesCount (deleteCascade db cid).2 pid
          ((deleteCascade db cid).2.countP (fun y => y.parentId == some pid))).filter
            (fun y => y.parentId == some pid)).length := by
      rw [← List.countP_eq_length_filter, countP_parentId_setRepliesCount]
    by_cases hxid : (x.id == pid) = true
    · rw [if_pos hxid] at hximg
      rw [← hximg]
      simp only
      rw [hcnt]
      rw [hpid]
    · rw [if_neg hxid] at hximg
      exfalso
      apply hxid
      rw [hximg, hp2id]
      exact beq_self_eq_true pid

/-- Concrete chain for the C1 witness: comment 1, its reply 2, reply 3
to 2, reply 4 to 3; comment 2 is then deleted with its two descendants. -/
def d1c1 : Comment :=
  { id := ['1'], videoId := ['v'], userId := ['u'], content := ['x'] }

def d1c2 : Comment :=
  { id := ['2'], videoId := ['v'], userId := ['u'], content := ['x'],
    parentId := some ['1'], thread := { level := 1, path := [sep, '1'] } }

def d1c3 : Comment :=
  { id := ['3'], videoId := ['v'], userId := ['u'], content := ['x'],
    parentId := some ['2'],
    thread := { level := 2, path := [sep, '1', sep, '2'] } }

def d1c4 : Comment :=
  { id := ['4'], videoId := ['v'], userId := ['u'], content := ['x'],
    parentId := some ['3'],
    thread := { level := 3, path := [sep, '1', sep, '2', sep, '3'] } }

def d1db : List Comment := [d1c1, d1c2, d1c3, d1c4]

def d1video : Video := { id := ['v'], stats := { commentsCount := 4 } }

/-- C1 counterexample: deleting comment 2 (which has two descendants)
performs the deletions and counter updates, but the handler then calls
`redisClient.invalidateVideo` — not among the methods `RedisClient`
defines — throws, and answers 500: there is no success response, so the
response does not report the count of documents removed. -/
theorem delete_response_counterexample :
    deleteOutcomeStatus (deleteCommentRoute [d1video] d1db ['2']) = 500 ∧
    deleteOutcomeStatus (deleteCommentRoute [d1video] d1db ['2']) ≠ 200 ∧
    calledInvalidateVideo ∉ redisClientMethodNames := by
  exact ⟨by decide, by decide, by decide⟩

/-- Witness for C1 at the concrete chain: the bulk delete counts the
comment plus its two descendants and the descendant 3 is gone. -/
theorem cascade_delete_exact_witness :
    (deleteCascade d1db ['2']).1 =
      d1db.countP (fun x => decide ((['2'] : Str) ∈ pathSegments x.thread.path)) + 1 ∧
    d1c3 ∉ (deleteCascade d1db ['2']).2 :=
  ⟨(cascade_delete_exact [d1video] d1db ['2'] d1c2 (by decide) (by decide)
      (by decide) (by decide) (by decide)).1,
   fun hm => ((cascade_delete_exact [d1video] d1db ['2'] d1c2 (by decide)
      (by decide) (by decide) (by decide) (by decide)).2.1 d1c3
      (by decide)).mp hm (by decide)⟩

/-- Body of a POST `/api/comments` request after JSON parsing. -/
structure CreateRequest where
  content : Str
  videoId : Str
  parentId : Option Str := none
deriving DecidableEq

/-- Joi validation of the create body: `content` is a required string of
at most 500 characters (Joi rejects an empty required string). -/
def contentValid (s : Str) : Bool :=
  !(s == []) && decide (s.length ≤ 500)

/-- Error cases of POST `/api/comments`, in the order the handler checks
them. -/
inductive CreateError where
  | invalidBody
  | videoNotFound
  | parentNotFoundOrCrossVideo
  | depthLimit
deriving DecidableEq

/-- HTTP status the handler sends for each create error. -/
def createErrorStatus : CreateError → Nat
  | CreateError.invalidBody => 400
  | CreateError.videoNotFound => 404
  | CreateError.parentNotFoundOrCrossVideo => 400
  | CreateError.depthLimit => 400

/-- State of the collections after the POST success path's mutations:
the comment saved (with its pre-save thread metadata), the video's
`commentsCount` incremented, and the parent's `repliesCount`
incremented when replying.  These mutations persist, but the handler
never reaches its 201 response: the invalidation step calls the
undefined `redisClient.invalidateVideo` and throws. -/
structure CreateState where
  comment : Comment
  db : List Comment
  videos : List Video
deriving DecidableEq

/-- Outcome of POST `/api/comments`: an early rejection (400/404 before
any mutation), or the mutations of `CreateState` followed by the
TypeError at the undefined `redisClient.invalidateVideo`, which the
catch-all turns into the generic 500 (`Failed to create comment`) — the
201 success response never occurs. -/
inductive CreateOutcome where
  | rejected (e : CreateError)
  | serverErrorAfterPersist (s : CreateState)
deriving DecidableEq

/-- HTTP status of each create outcome. -/
def createOutcomeStatus : CreateOutcome → Nat
  | CreateOutcome.rejected e => createErrorStatus e
  | CreateOutcome.serverErrorAfterPersist _ => 500

/-- Update `Comment.findByIdAndUpdate` with a `stats.repliesCount` increment of 1. -/
def incRepliesCount (db : List Comment) (pid : Str) : List Comment :=
  db.map (fun x =>
    if x.id == pid then
      { x with stats := { x.stats with repliesCount := x.stats.repliesCount + 1 } }
    else x)

/-- Mutations of the POST handler's success path, all of which complete
before the throwing invalidation step: construct the document, run the
pre-save middleware, append it, `$inc` the video's `commentsCount` by 1,
and `$inc` the parent's `repliesCount` by 1 when replying. -/
def finishCreate (videos : List Video) (db : List Comment)
    (req : CreateRequest) (authorId newId : Str) (now : Nat) : CreateState :=
  let c := preSaveNewComment db
    (mkRouteComment req.content req.videoId authorId req.parentId now newId)
  let db1 := db ++ [c]
  let videos1 := updateVideoCount videos req.videoId 1
  let db2 :=
    match req.parentId with
    | some pid => incRepliesCount db1 pid
    | none => db1
  { comment := c, db := db2, videos := videos1 }

/-- POST `/api/comments`: validate the body, 404 a missing video, answer
400 when the parent is missing or belongs to another video, 400 when
the parent's nesting level is already 5; otherwise persist and update
the counters — after which the handler evaluates
`redisClient.invalidateVideo(videoId)`, a method `RedisClient` does not
define, throws, and answers 500 with the mutations already applied. -/
def createComment (videos : List Video) (db : List Comment)
    (req : CreateRequest) (authorId newId : Str) (now : Nat) :
    CreateOutcome :=
  if contentValid req.content = false then
    CreateOutcome.rejected CreateError.invalidBody
  else
    match findVideoById videos req.videoId with
    | none => CreateOutcome.rejected CreateError.videoNotFound
    | some _ =>
      match req.parentId with
      | some pid =>
        match findById db pid with
        | none => CreateOutcome.rejected CreateError.parentNotFoundOrCrossVideo
        | some p =>
          if p.videoId ≠ req.videoId then
            CreateOutcome.rejected CreateError.parentNotFoundOrCrossVideo
          else if 5 ≤ p.thread.level then
            CreateOutcome.rejected CreateError.depthLimit
          else
            CreateOutcome.serverErrorAfterPersist
              (finishCreate videos db req authorId newId now)
      | none =>
        CreateOutcome.serverErrorAfterPersist
          (finishCreate videos db req authorId newId now)

lemma incRepliesCount_preserves (db : List Comment) (pid : Str) :
    ∀ x ∈ db, ∃ y ∈ incRepliesCount db pid,
      y.id = x.id ∧ y.thread = x.thread := by
  intro x hx
  refine ⟨(fun z =>
      if z.id == pid then
        { z with stats := { z.stats with repliesCount := z.stats.repliesCount + 1 } }
      else z) x, ?_, ?_, ?_⟩
  · rw [incRepliesCount]
    exact List.mem_map_of_mem _ hx
  · by_cases hb : (x.id == pid) = true <;> simp [hb]
  · by_cases hb : (x.id == pid) = true <;> simp [hb]

/-- C2: with a valid body, an existing video, and an existing parent of
the same video, creation is rejected with the depth-limit 400 exactly
when the parent's level is at least 5; a parent at level 4 yields a
comment persisted at level 5 (present in the resulting collection, even
though the handler then throws at the undefined
`redisClient.invalidateVideo` and answers 500) — so level-5 comments
exist but never acquire children, capping the tree at levels 0 through
5. -/
theorem depth_limit_iff (videos : List Video) (db : List Comment)
    (req : CreateRequest) (authorId newId : Str) (now : Nat)
    (pid : Str) (p : Comment)
    (hc : contentValid req.content = true)
    (hv : (findVideoById videos req.videoId).isSome)
    (hpid : req.parentId = some pid)
    (hp : findById db pid = some p)
    (hsame : p.videoId = req.videoId) :
    (createComment videos db req authorId newId now =
        CreateOutcome.rejected CreateError.depthLimit ↔ 5 ≤ p.thread.level) ∧
    createErrorStatus CreateError.depthLimit = 400 ∧
    (p.thread.level = 4 →
      createComment videos db req authorId newId now =
        CreateOutcome.serverErrorAfterPersist
          (finishCreate videos db req authorId newId now) ∧
      (finishCreate videos db req authorId newId now).comment.thread.level = 5 ∧
      ∃ c2 ∈ (finishCreate videos db req authorId newId now).db,
        c2.id = newId ∧ c2.thread.level = 5) := by
  obtain ⟨v, hv2⟩ := Option.isSome_iff_exists.mp hv
  have hpre := preSave_thread_eq db
    (mkRouteComment req.content req.videoId authorId req.parentId now newId)
    pid p (by rw [mkRouteComment, hpid]) hp
  refine ⟨?_, rfl, ?_⟩
  · by_cases hlvl : 5 ≤ p.thread.level
    · simp [createComment, hc, hv2, hpid, hp, hsame, hlvl]
    · simp [createComment, hc, hv2, hpid, hp, hsame, hlvl]
  · intro hlvl4
    have hnl : ¬(5 ≤ p.thread.level) := by omega
    have hclvl : (preSaveNewComment db (mkRouteComment req.content
        req.videoId authorId req.parentId now newId)).thread.level = 5 := by
      rw [hpre]
      simp [hlvl4]
    refine ⟨?_, ?_, ?_⟩
    · simp [createComment, hc, hv2, hpid, hp, hsame, hnl]
    · rw [finishCreate]
      simp only
      exact hclvl
    · have hdb2 : (finishCreate videos db req authorId newId now).db =
          incRepliesCount (db ++ [preSaveNewComment db (mkRouteComment
            req.content req.videoId authorId req.parentId now newId)]) pid := by
        rw [finishCreate]
        simp only [hpid]
      have hcid2 : (preSaveNewComment db (mkRouteComment req.content
          req.videoId authorId req.parentId now newId)).id = newId := by
        rw [hpre]
        simp [mkRouteComment]
      have hmemc : preSaveNewComment db (mkRouteComment req.content
          req.videoId authorId req.parentId now newId) ∈
          db ++ [preSaveNewComment db (mkRouteComment req.content
            req.videoId authorId req.parentId now newId)] :=
        List.mem_append_right db (List.mem_singleton_self _)
      obtain ⟨y, hy, hyid, hyth⟩ := incRepliesCount_preserves
        (db ++ [preSaveNewComment db (mkRouteComment req.content
          req.videoId authorId req.parentId now newId)]) pid _ hmemc
      rw [hdb2]
      refine ⟨y, hy, ?_, ?_⟩
      · rw [hyid, hcid2]
      · rw [hyth]
        exact hclvl

/-- Concrete five-deep chain for the C2 witness: parent at level 5. -/
def c2deepParent : Comment :=
  { id := ['5'], videoId := ['v'], userId := ['u'], content := ['x'],
    parentId := some ['4'],
    thread := { level := 5, path := [sep, '1', sep, '2', sep, '3', sep, '4'] } }

def c2video : Video := { id := ['v'] }

def c2req : CreateRequest :=
  { content := ['h'], videoId := ['v'], parentId := some ['5'] }

/-- Witness for C2: replying to a level-5 parent is rejected with the
depth-limit error. -/
theorem depth_limit_iff_witness :
    createComment [c2video] [c2deepParent] c2req ['u'] ['n'] 0 =
      CreateOutcome.rejected CreateError.depthLimit :=
  (depth_limit_iff [c2video] [c2deepParent] c2req ['u'] ['n'] 0 ['5']
      c2deepParent (by decide) (by decide) (by decide) (by decide)
      (by decide)).1.mpr (by decide)

def c6video : Video := { id := ['v'] }

def c6req : CreateRequest :=
  { content := ['h'], videoId := ['v'], parentId := some ['p'] }

/-- C6 counterexample: with an existing video, valid content, and a
parentId that matches no comment, the handler answers the combined
parent-missing-or-cross-video error with HTTP 400 — not the 404 the
claim asserts for a missing parent. -/
theorem create_missing_parent_counterexample :
    createComment [c6video] [] c6req ['u'] ['n'] 0 =
      CreateOutcome.rejected CreateError.parentNotFoundOrCrossVideo ∧
    createErrorStatus CreateError.parentNotFoundOrCrossVideo = 400 ∧
    createErrorStatus CreateError.parentNotFoundOrCrossVideo ≠ 404 := by
  refine ⟨rfl, rfl, by decide⟩

/-- C6 amended: create fails 400 on invalid content, 404 on a missing
video, 400 (not 404) when the parent is missing or belongs to a
different video, and 400 at the depth limit; a valid request persists
the comment authored by the requester, but the handler then throws at
the undefined `redisClient.invalidateVideo` and answers 500, so no
success response carrying the populated comment is ever returned. -/
theorem create_error_mapping (videos : List Video) (db : List Comment)
    (req : CreateRequest) (authorId newId : Str) (now : Nat) :
    (contentValid req.content = false →
      createComment videos db req authorId newId now =
        CreateOutcome.rejected CreateError.invalidBody ∧
      createErrorStatus CreateError.invalidBody = 400) ∧
    (contentValid req.content = true →
      findVideoById videos req.videoId = none →
      createComment videos db req authorId newId now =
        CreateOutcome.rejected CreateError.videoNotFound ∧
      createErrorStatus CreateError.videoNotFound = 404) ∧
    (∀ pid, contentValid req.content = true →
      (findVideoById videos req.videoId).isSome →
      req.parentId = some pid → findById db pid = none →
      createComment videos db req authorId newId now =
        CreateOutcome.rejected CreateError.parentNotFoundOrCrossVideo ∧
      createErrorStatus CreateError.parentNotFoundOrCrossVideo = 400) ∧
    (∀ pid p, contentValid req.content = true →
      (findVideoById videos req.videoId).isSome →
      req.parentId = some pid → findById db pid = some p →
      p.videoId ≠ req.videoId →
      createComment videos db req authorId newId now =
        CreateOutcome.rejected CreateError.parentNotFoundOrCrossVideo) ∧
    (∀ pid p, contentValid req.content = true →
      (findVideoById videos req.videoId).isSome →
      req.parentId = some pid → findById db pid = some p →
      p.videoId = req.videoId → 5 ≤ p.thread.level →
      createComment videos db req authorId newId now =
        CreateOutcome.rejected CreateError.depthLimit) ∧
    (contentValid req.content = true →
      (findVideoById videos req.videoId).isSome →
      req.parentId = none →
      createComment videos db req authorId newId now =
        CreateOutcome.serverErrorAfterPersist
          (finishCreate videos db req authorId newId now) ∧
      createOutcomeStatus (createComment videos db req authorId newId now) = 500 ∧
      (finishCreate videos db req authorId newId now).comment.userId = authorId) ∧
    calledInvalidateVideo ∉ redisClientMethodNames := by
  refine ⟨?_, ?_, ?_, ?_, ?_, ?_, by decide⟩
  · intro h
    rw [createComment, if_pos h]
    exact ⟨rfl, rfl⟩
  · intro h hvn
    simp [createComment, h, hvn, createErrorStatus]
  · intro pid h hv hpid hpn
    obtain ⟨v, hv2⟩ := Option.isSome_iff_exists.mp hv
    simp [createComment, h, hv2, hpid, hpn, createErrorStatus]
  · intro pid p h hv hpid hp hdiff
    obtain ⟨v, hv2⟩ := Option.isSome_iff_exists.mp hv
    simp [createComment, h, hv2, hpid, hp, hdiff]
  · intro pid p h hv hpid hp hsame hlvl
    obtain ⟨v, hv2⟩ := Option.isSome_iff_exists.mp hv
    simp [createComment, h, hv2, hpid, hp, hsame, hlvl]
  · intro h hv hpid
    obtain ⟨v, hv2⟩ := Option.isSome_iff_exists.mp hv
    have heq : createComment videos db req authorId newId now =
        CreateOutcome.serverErrorAfterPersist
          (finishCreate videos db req authorId newId now) := by
      simp [createComment, h, hv2, hpid]
    refine ⟨heq, ?_, ?_⟩
    · rw [heq]
      rfl
    · rw [finishCreate]
      simp only
      rw [preSaveNewComment]
      simp [mkRouteComment, hpid]

/-- Witness for the amended C6 at a concrete missing video. -/
theorem create_error_mapping_witness :
    createComment [] [] c6req ['u'] ['n'] 0 =
      CreateOutcome.rejected CreateError.videoNotFound ∧
    createErrorStatus CreateError.videoNotFound = 404 :=
  (create_error_mapping [] [] c6req ['u'] ['n'] 0).2.1 (by decide) (by decide)

/-- A redis cache: an association list from full redis key to a cached
payload (the payload itself is abstracted as a number). -/
abbrev RedisCache := List (String × Nat)

/-- Key builder `RedisClient.generateKey(namespace, key)`. -/
def generateKey (ns k : String) : String :=
  "pluto:" ++ ns ++ ":" ++ k

/-- Write `setEx` as used by `RedisClient.set`/`setComments`: overwrite the
key with a fresh value (TTL not modelled). -/
def cacheSet (cache : RedisCache) (ns k : String) (v : Nat) : RedisCache :=
  (generateKey ns k, v) :: cache.filter (fun e => !(e.1 == generateKey ns k))

/-- Read `RedisClient.get`/`getComments`: look the full key up. -/
def cacheGet (cache : RedisCache) (ns k : String) : Option Nat :=
  (cache.find? (fun e => e.1 == generateKey ns k)).map (fun e => e.2)

/-- Delete `RedisClient.del(namespace, key)`: a literal single-key `DEL` of
`generateKey(namespace, key)`.  It performs no pattern expansion —
unlike `invalidatePhotosList`, it never calls `keys()` — so a `*` in
`key` is just a character of the key being deleted. -/
def cacheDel (cache : RedisCache) (ns k : String) : RedisCache :=
  cache.filter (fun e => !(e.1 == generateKey ns k))

/-- The namespace the list route caches under: `setComments` wraps its
argument in `generateKey('comments', ...)`. -/
def commentsNs : String := "comments"

def commentThreadsNs : String := "comment_threads"

/-- Cache key a page of GET `/api/comments/video/:videoId` is stored
under (before the namespace wrapping), exactly as the route builds it. -/
def listCacheKey (videoId page limit sortBy sortOrder : String) : String :=
  "comments:video:" ++ videoId ++ ":page:" ++ page ++ ":limit:" ++ limit ++
    ":_" ++ sortBy ++ "_" ++ sortOrder

/-- Cache invalidation performed by PUT `/api/comments/:id` after an
edit: `del('comments', videoId + "_*")` and
`del('comment_threads', "*" + commentId + "*")`. -/
def editCacheInvalidation (cache : RedisCache) (videoId commentId : String) :
    RedisCache :=
  cacheDel (cacheDel cache commentsNs (videoId ++ "_*")) commentThreadsNs
    ("*" ++ commentId ++ "*")

/-- The full key of page 1 of video `v1`'s comment list. -/
def c7key : String := listCacheKey ("v1") ("1") ("20") ("createdAt") ("asc")

/-- A cache holding that one page, as the list route would leave it. -/
def c7cache : RedisCache := cacheSet [] commentsNs c7key 7

/-- C7 evaluation: after editing a comment of video `v1`, the
previously cached comment-list page of `v1` is still present and a
subsequent list request is served from it — the invalidation deleted
only the literal key `pluto:comments:v1_*`, which no cached page ever
equals, because `RedisClient.del` is not pattern-based. -/
theorem edit_invalidation_misses_cached_page :
    cacheGet (editCacheInvalidation c7cache ("v1") ("c1")) commentsNs c7key =
      some 7 ∧
    generateKey commentsNs (("v1") ++ "_*") ≠ generateKey commentsNs c7key := by
  exact ⟨by decide, by decide⟩

/-- Names of the statics `Comment.js` actually installs on the model:
`getPhotoComments` (which filters on a `photoId` field the comment
schema does not even declare) and `getCommentThread`. -/
def commentStaticNames : List String :=
  ["getPhotoComments", "getCommentThread"]

/-- The static the GET `/api/comments/video/:videoId` route invokes. -/
def calledVideoStatic : String := "getVideoComments"

/-- GET `/api/comments/video/:videoId`: cache hits are served with 200;
a missing video is 404; otherwise the handler calls
`Comment.getVideoComments(videoId, options)` — a static the model never
defines — so the call throws a TypeError and the catch-all answers 500.
The `cacheHit`/`videoExists` booleans abstract those two lookups. -/
def videoCommentsRouteStatus (cacheHit videoExists : Bool) : Nat :=
  if cacheHit then 200
  else if !videoExists then 404
  else if commentStaticNames.contains calledVideoStatic then 200
  else 500

/-- C5 evaluation: `getVideoComments` is not among the statics the
Comment model defines, so every cache-miss listing request for an
existing video ends in HTTP 500 instead of the documented paginated
list. -/
theorem video_comments_route_broken :
    calledVideoStatic ∉ commentStaticNames ∧
    videoCommentsRouteStatus false true = 500 := by
  exact ⟨by decide, by decide⟩

end Pluto
